import Mathlib

/-!
Shallow embedding of the `tk_data_preparer` core pipeline
(`core/cleaning.py`, `core/filtering.py`, `core/deduplication.py`,
`core/pipeline.py`) and proofs about the spec's claims.

A dataset is modelled as a pandas-style DataFrame: a list of column
names plus a list of rows, each row a list of cell values aligned with
the column list.  Cell values are either missing (`NaN`/`None`/`<NA>`,
one sentinel `Value.na` in the model) or textual.  Numeric cells play
no role in any claim; textual columns are what every stage operates on.
-/

namespace TkPrep

/-- A cell value: either the missing sentinel or a string.  pandas has
several missing sentinels (`NaN`, `None`, `<NA>`); the model uses one. -/
inductive Value where
  | na : Value
  | str : String → Value
deriving DecidableEq, Repr

/-- `pd.isna` on a cell. -/
def Value.isna : Value → Bool
  | .na => true
  | .str _ => false

/-- `Series.astype(str)` rendering of a cell, as used by
`filter_by_length` (filtering.py line 28) and `remove_duplicates`
(deduplication.py line 30).  pandas renders a missing float `NaN` as the
literal string `"nan"` (an object-dtype `None` renders `"None"` and a
`pd.NA` renders `"<NA>"`; the model fixes the `"nan"` rendering — every
rendering is a short fixed literal, which is all the proofs use). -/
def Value.render : Value → String
  | .na => "nan"
  | .str s => s

/-- A pandas DataFrame: ordered column names and ordered rows. -/
structure DataFrame where
  cols : List String
  rows : List (List Value)
deriving DecidableEq, Repr

/-- Index of a column name (first occurrence), `cols.length` if absent —
mirroring positional lookup of `df[column]`. -/
def DataFrame.colIdx (df : DataFrame) (c : String) : Nat :=
  df.cols.indexOf c

/-- The cell of row `r` in column `c` of a frame shaped like `df`. -/
def rowCell (df : DataFrame) (c : String) (r : List Value) : Value :=
  r.getD (df.colIdx c) .na

/-- All rows have exactly one cell per column. -/
def DataFrame.Wf (df : DataFrame) : Prop :=
  ∀ r ∈ df.rows, r.length = df.cols.length

instance (df : DataFrame) : Decidable df.Wf := by
  unfold DataFrame.Wf; infer_instance

-- ---------------------------------------------------------------------------
-- filtering.py
-- ---------------------------------------------------------------------------

/-- `FilterConfig` (filtering.py lines 6-12): a plain dataclass.  The
constructor performs no validation whatsoever — any integer, including a
negative one, is accepted for `min_length`. -/
structure FilterConfig where
  min_length : Option Int := none
  drop_na : Bool := false
deriving DecidableEq, Repr

/-- Metrics of `filter_by_length`: either the no-threshold record
`{"removed_rows": 0, "reason": "no min_length set"}` or the full record. -/
inductive FilterMetrics where
  | no_min_length_set : FilterMetrics
  | filtered (removed_rows remaining_rows : Nat) (min_length : Int)
      (drop_na : Bool) : FilterMetrics
deriving DecidableEq, Repr

/-- The boolean mask of filtering.py lines 28-32:
`mask = df[column].astype(str).str.len() >= config.min_length`, then
`mask |= df[column].isna()` when `drop_na` is false. -/
def filterMask (df : DataFrame) (column : String) (config : FilterConfig)
    (m : Int) (r : List Value) : Bool :=
  decide (((rowCell df column r).render.length : Int) ≥ m) ||
    (!config.drop_na && (rowCell df column r).isna)

/-- `filter_by_length` (filtering.py lines 15-44). -/
def filter_by_length (df : DataFrame) (column : String)
    (config : FilterConfig) : DataFrame × FilterMetrics :=
  match config.min_length with
  | none => (df, .no_min_length_set)
  | some m =>
    let kept := df.rows.filter (filterMask df column config m)
    (⟨df.cols, kept⟩,
     .filtered (df.rows.length - kept.length) kept.length m config.drop_na)

/-- `drop_na_rows` (filtering.py lines 47-62). -/
def drop_na_rows (df : DataFrame) (column : String) :
    DataFrame × Nat × Nat :=
  let kept := df.rows.filter (fun r => !(rowCell df column r).isna)
  (⟨df.cols, kept⟩, df.rows.length - kept.length, kept.length)

-- ---------------------------------------------------------------------------
-- cleaning.py
-- ---------------------------------------------------------------------------

/-- Python's Unicode-aware `\s` character class (`WS_CHAR_PATTERN` in
cleaning.py): ASCII whitespace and control separators plus the Unicode
space characters. -/
def isWs (c : Char) : Bool :=
  let n := c.toNat
  n = 0x20 || n = 0x9 || n = 0xA || n = 0xB || n = 0xC || n = 0xD ||
  (0x1C ≤ n && n ≤ 0x1F) || n = 0x85 || n = 0xA0 || n = 0x1680 ||
  (0x2000 ≤ n && n ≤ 0x200A) || n = 0x2028 || n = 0x2029 ||
  n = 0x202F || n = 0x205F || n = 0x3000

/-- `re.sub(r"\s+", " ", x)` — every maximal run of whitespace becomes a
single ASCII space.  The boolean argument records whether the previous
character belonged to a whitespace run. -/
def collapseWsAux : Bool → List Char → List Char
  | _, [] => []
  | prevWs, c :: cs =>
    if isWs c then
      if prevWs then collapseWsAux true cs
      else ' ' :: collapseWsAux true cs
    else c :: collapseWsAux false cs

def collapseWs (l : List Char) : List Char :=
  collapseWsAux false l

/-- `re.sub(r"^\s+|\s+$", "", x)` — drop the leading and the trailing
whitespace run. -/
def stripWs (l : List Char) : List Char :=
  ((l.dropWhile isWs).reverse.dropWhile isWs).reverse

/-- Number of `\s` code points in a list of characters
(`_count_whitespace_chars` per cell; missing cells count 0 via
`fillna(0)`). -/
def countWs (l : List Char) : Nat :=
  (l.filter isWs).length

/-- Unicode normalization forms accepted by `CleanConfig`. -/
inductive NormForm where
  | NFC | NFKC | NFD | NFKD
deriving DecidableEq, Repr

inductive CaseMode where
  | lower | upper
deriving DecidableEq, Repr

/-- The external Python text library the cleaning code delegates to:
`unicodedata.normalize`, `str.lower`/`str.upper` and
`unicodedata.combining`.  These are not code of this repository, so the
embedding abstracts them as a parameter; concrete instances below model
their behaviour on the code points actually used. -/
structure UnicodeLib where
  normalize : NormForm → String → String
  lower : String → String
  upper : String → String
  combining : Char → Bool

/-- `CleanConfig` (cleaning.py lines 66-94) with its source defaults. -/
structure CleanConfig where
  strip : Bool := true
  collapse_whitespace : Bool := true
  unicode_normalization : Option NormForm := some .NFKC
  case : Option CaseMode := none
  transliterate_ascii : Bool := false
  coerce_non_strings : Bool := false
  empty_to_na : Bool := true
deriving DecidableEq, Repr

/-- Steps (1)+(2) of the per-column transform: collapse whitespace runs,
then strip, each only when enabled (cleaning.py lines 228-232). -/
def wsClean (config : CleanConfig) (s : String) : String :=
  let s1 := if config.collapse_whitespace then String.mk (collapseWs s.data) else s
  if config.strip then String.mk (stripWs s1.data) else s1

/-- `_transliterate_ascii` on one string: NFKD-decompose, drop combining
marks, keep only the ASCII range (`encode("ascii", "ignore")`). -/
def translitAscii (lib : UnicodeLib) (s : String) : String :=
  String.mk (((lib.normalize .NFKD s).data.filter
    (fun c => !lib.combining c)).filter (fun c => c.toNat < 128))

/-- Steps (3)+(4)+(5): Unicode normalization, optional transliteration,
optional case transform (cleaning.py lines 239-246). -/
def postTransform (lib : UnicodeLib) (config : CleanConfig) (s : String) : String :=
  let s2 := match config.unicode_normalization with
    | none => s
    | some f => lib.normalize f s
  let s3 := if config.transliterate_ascii then translitAscii lib s2 else s2
  match config.case with
  | some .lower => lib.lower s3
  | some .upper => lib.upper s3
  | none => s3

/-- Steps (1)-(5) on one cell.  Every step preserves the missing
sentinel: `.str` ops propagate NA and the mapped helpers return `x`
unchanged when `pd.isna(x)`. -/
def cleanCellPre (lib : UnicodeLib) (config : CleanConfig) : Value → Value
  | .na => .na
  | .str s => .str (postTransform lib config (wsClean config s))

/-- The full per-cell transform including step (6), `empty_to_na`
(cleaning.py lines 249-254): a cell that is the empty string after
steps 1-5 becomes missing; missing stays missing. -/
def cleanCell (lib : UnicodeLib) (config : CleanConfig) (v : Value) : Value :=
  match cleanCellPre lib config v with
  | .na => .na
  | .str t => if config.empty_to_na && t = "" then .na else .str t

/-- Whitespace removed from one cell by steps (1)+(2) (cleaning.py lines
225-237): whitespace count before minus after, missing cells contribute
0 on both sides (`fillna(0)`). -/
def wsRemovedCell (config : CleanConfig) : Value → Int
  | .na => 0
  | .str s => (countWs s.data : Int) - (countWs (wsClean config s).data : Int)

/-- Per-column whitespace-removed metric:
`int((ws_before - ws_after).sum())`. -/
def colWsRemoved (config : CleanConfig) (vs : List Value) : Int :=
  (vs.map (wsRemovedCell config)).sum

/-- Per-column contribution to `empty_strings_to_na`:
`empties = s2.fillna("").str.len() == 0` counts both cells that are the
empty string after steps 1-5 AND cells that are (still) missing, because
`fillna("")` turns missing into the empty string before measuring. -/
def colEmptyToNa (lib : UnicodeLib) (config : CleanConfig) (vs : List Value) : Nat :=
  if config.empty_to_na then
    (vs.filter (fun v => v.isna || cleanCellPre lib config v = .str "")).length
  else 0

/-- Per-column contribution to `cells_modified`:
`changed = s2.ne(s0) & ~(s2.isna() & s0.isna())` summed with
`skipna=True`, so a comparison involving exactly one missing side is NA
and is skipped by the sum — only cells that are non-missing on both
sides and textually different are counted. -/
def colCellsModified (lib : UnicodeLib) (config : CleanConfig) (vs : List Value) : Nat :=
  (vs.filter (fun v =>
    match v, cleanCell lib config v with
    | .str a, .str b => a ≠ b
    | _, _ => false)).length

/-- Replace column `j` of every row by its image under `f`
(`out[col] = s2`); positions past a row's end are untouched, matching
`List.set` out-of-range behaviour. -/
def DataFrame.mapCol (df : DataFrame) (j : Nat) (f : Value → Value) : DataFrame :=
  ⟨df.cols, df.rows.map (fun r => r.set j (f (r.getD j .na)))⟩

/-- The values of column `j`. -/
def DataFrame.colVals (df : DataFrame) (j : Nat) : List Value :=
  df.rows.map (fun r => r.getD j .na)

/-- Insert-or-replace into an association list with Python-dict
semantics: an existing key keeps its position, a new key is appended. -/
def dictInsert (k : String) (v : Int) : List (String × Int) → List (String × Int)
  | [] => [(k, v)]
  | (k', v') :: rest =>
    if k' = k then (k, v) :: rest else (k', v') :: dictInsert k v rest

/-- Accumulator of the column loop of `clean_columns`. -/
structure CleanState where
  df : DataFrame
  perCol : List (String × Int)
  cellsModified : Nat
  emptyToNa : Nat
deriving DecidableEq, Repr

/-- One iteration of the column loop (cleaning.py lines 218-257): skip a
column that is absent; otherwise compute the metrics from the current
values and overwrite the column with the cleaned cells.  (In the model
every column is textual, so the dtype check `is_textual` never skips.) -/
def processCol (lib : UnicodeLib) (config : CleanConfig)
    (st : CleanState) (col : String) : CleanState :=
  if col ∈ st.df.cols then
    let j := st.df.colIdx col
    let vs := st.df.colVals j
    { df := st.df.mapCol j (cleanCell lib config),
      perCol := dictInsert col (colWsRemoved config vs) st.perCol,
      cellsModified := st.cellsModified + colCellsModified lib config vs,
      emptyToNa := st.emptyToNa + colEmptyToNa lib config vs }
  else st

/-- `clean_columns` metrics record. -/
structure CleanMetrics where
  total_whitespace_removed : Int
  per_column_whitespace_removed : List (String × Int)
  cells_modified : Nat
  empty_strings_to_na : Nat
  columns_processed : List String
deriving DecidableEq, Repr

/-- `clean_columns` (cleaning.py lines 163-271).  When `columns` is
`none` the textual columns are auto-detected; in the model every column
is textual, so that is the full column list. -/
def clean_columns (lib : UnicodeLib) (df : DataFrame)
    (columns : Option (List String)) (config : CleanConfig) :
    DataFrame × CleanMetrics :=
  let cols := columns.getD df.cols
  let st := cols.foldl (processCol lib config) ⟨df, [], 0, 0⟩
  (st.df,
   { total_whitespace_removed := (st.perCol.map Prod.snd).sum,
     per_column_whitespace_removed := st.perCol,
     cells_modified := st.cellsModified,
     empty_strings_to_na := st.emptyToNa,
     columns_processed := cols })

-- ---------------------------------------------------------------------------
-- deduplication.py
-- ---------------------------------------------------------------------------

/-- The `keep` strategy.  The dataclass types it as
`Literal["first", "last", False]`: the Python value `False` is the
"remove all members of every duplicated group" strategy the spec spells
`none` (pandas `drop_duplicates(keep=False)`). -/
inductive Keep where
  | first | last | none
deriving DecidableEq, Repr

/-- `DedupConfig` (deduplication.py lines 6-13) with source defaults. -/
structure DedupConfig where
  keep : Keep := .first
  case_sensitive : Bool := true
  normalize_unicode : Bool := false
deriving DecidableEq, Repr

/-- The comparison key of one cell (deduplication.py lines 29-34):
`astype(str)` rendering, lower-cased when not case-sensitive, then
NFKC-normalized when requested. -/
def dedupKey (lib : UnicodeLib) (config : DedupConfig) (v : Value) : String :=
  let s := v.render
  let s := if config.case_sensitive then s else lib.lower s
  if config.normalize_unicode then lib.normalize .NFKC s else s

/-- `drop_duplicates(keep="first")` on rows paired with their keys: keep
a row iff its key was not seen earlier. -/
def dropDupFirst (seen : List String) : List (List Value × String) → List (List Value)
  | [] => []
  | (r, k) :: rest =>
    if k ∈ seen then dropDupFirst seen rest
    else r :: dropDupFirst (k :: seen) rest

/-- `drop_duplicates(keep="last")`: keep a row iff its key does not
occur later. -/
def dropDupLast : List (List Value × String) → List (List Value)
  | [] => []
  | (r, k) :: rest =>
    if k ∈ rest.map Prod.snd then dropDupLast rest
    else r :: dropDupLast rest

/-- `drop_duplicates(keep=False)`: keep a row iff its key occurs exactly
once in the whole column. -/
def dropDupNone (allKeys : List String) (l : List (List Value × String)) :
    List (List Value) :=
  (l.filter (fun p => allKeys.count p.2 ≤ 1)).map Prod.fst

def dropDupRows (keep : Keep) (allKeys : List String)
    (l : List (List Value × String)) : List (List Value) :=
  match keep with
  | .first => dropDupFirst [] l
  | .last => dropDupLast l
  | .none => dropDupNone allKeys l

/-- `df_aux["__dedup_key__"] = series`: overwrite the column in place if
it already exists (keeping its position), else append it on the right. -/
def DataFrame.setColOrAppend (df : DataFrame) (c : String) (vs : List Value) :
    DataFrame :=
  if c ∈ df.cols then
    ⟨df.cols, (df.rows.zip vs).map (fun p => p.1.set (df.colIdx c) p.2)⟩
  else
    ⟨df.cols ++ [c], (df.rows.zip vs).map (fun p => p.1 ++ [p.2])⟩

/-- `df.drop(columns=[c])`: remove the column name and the cell at its
position from every row. -/
def DataFrame.dropColumn (df : DataFrame) (c : String) : DataFrame :=
  let j := df.colIdx c
  ⟨df.cols.eraseIdx j, df.rows.map (fun r => r.eraseIdx j)⟩

/-- `remove_duplicates` metrics record. -/
structure DedupMetrics where
  removed_duplicates : Nat
  remaining_rows : Nat
  keep_strategy : Keep
  case_sensitive : Bool
  normalize_unicode : Bool
deriving DecidableEq, Repr

/-- `remove_duplicates` (deduplication.py lines 16-55): build the key
series, copy the frame with an auxiliary `"__dedup_key__"` column
holding the keys, `drop_duplicates` on that column, drop the auxiliary
column again. -/
def remove_duplicates (lib : UnicodeLib) (df : DataFrame) (column : String)
    (config : DedupConfig) : DataFrame × DedupMetrics :=
  let keys := df.rows.map (fun r => dedupKey lib config (rowCell df column r))
  let dfAux := df.setColOrAppend "__dedup_key__" (keys.map Value.str)
  let keptRows := dropDupRows config.keep keys (dfAux.rows.zip keys)
  let dfOut := DataFrame.dropColumn ⟨dfAux.cols, keptRows⟩ "__dedup_key__"
  (dfOut,
   { removed_duplicates := df.rows.length - dfOut.rows.length,
     remaining_rows := dfOut.rows.length,
     keep_strategy := config.keep,
     case_sensitive := config.case_sensitive,
     normalize_unicode := config.normalize_unicode })

-- ---------------------------------------------------------------------------
-- pipeline.py
-- ---------------------------------------------------------------------------

/-- `PipelineConfig` (pipeline.py lines 11-18): `None` disables a stage. -/
structure PipelineConfig where
  cleaning : Option CleanConfig := none
  filtering : Option FilterConfig := none
  deduplication : Option DedupConfig := none

/-- One stage's metrics record inside the aggregated map. -/
inductive StageMetrics where
  | cleaning : CleanMetrics → StageMetrics
  | filtering : FilterMetrics → StageMetrics
  | deduplication : DedupMetrics → StageMetrics

/-- `PipelineResult` (pipeline.py lines 21-24); the metrics dict is an
association list keyed by stage name, in insertion order. -/
structure PipelineResult where
  dataframe : DataFrame
  metrics : List (String × StageMetrics)

/-- `DataPreparationPipeline.run` (pipeline.py lines 39-68).  A stage
runs iff its config is set — the Python guard `if self.config.cleaning:`
tests truthiness, and a dataclass instance is always truthy, so the test
is equivalent to `is not None`. -/
def run (lib : UnicodeLib) (config : PipelineConfig) (df : DataFrame)
    (target_column : String) (columns_to_clean : Option (List String)) :
    PipelineResult :=
  let (df1, m1) := match config.cleaning with
    | some c =>
      let r := clean_columns lib df columns_to_clean c
      (r.1, [("cleaning", StageMetrics.cleaning r.2)])
    | none => (df, [])
  let (df2, m2) := match config.filtering with
    | some c =>
      let r := filter_by_length df1 target_column c
      (r.1, [("filtering", StageMetrics.filtering r.2)])
    | none => (df1, [])
  let (df3, m3) := match config.deduplication with
    | some c =>
      let r := remove_duplicates lib df2 target_column c
      (r.1, [("deduplication", StageMetrics.deduplication r.2)])
    | none => (df2, [])
  ⟨df3, m1 ++ m2 ++ m3⟩

-- ---------------------------------------------------------------------------
-- Concrete model of the Python text library
-- ---------------------------------------------------------------------------

/-- NFKC action on one code point, restricted to the code points that
occur in the concrete datasets of this file.  Faithful to CPython's
`unicodedata.normalize("NFKC", ...)`: U+02D8 BREVE has the compatibility
decomposition `<compat> 0020 0306` and normalizes to SPACE followed by
COMBINING BREVE; the ASCII range, U+00E3 (ã) and U+0306/U+0303 are NFKC
fixed points, and none of the concrete strings used here allows a
composition across adjacent characters. -/
def nfkcChar (c : Char) : List Char :=
  if c = Char.ofNat 0x2D8 then [Char.ofNat 0x20, Char.ofNat 0x306] else [c]

/-- Model of the Python text library on the code points used in the
concrete theorems: `normalize` is modelled for NFKC (the only form the
concrete instances exercise; other forms are left as the identity),
`lower`/`upper` are the ASCII case maps (the concrete strings they are
applied to are ASCII), and `combining` recognises U+0306/U+0303. -/
def pyLib : UnicodeLib where
  normalize f s :=
    match f with
    | .NFKC => String.mk (s.data.flatMap nfkcChar)
    | _ => s
  lower s := String.mk (s.data.map Char.toLower)
  upper s := String.mk (s.data.map Char.toUpper)
  combining c := c = Char.ofNat 0x306 || c = Char.ofNat 0x303

-- ---------------------------------------------------------------------------
-- Shared list lemmas
-- ---------------------------------------------------------------------------

theorem zip_selfmap {α β : Type} (l : List α) (f : α → β) :
    l.zip (l.map f) = l.map (fun a => (a, f a)) := by
  induction l with
  | nil => rfl
  | cons a t ih => simp [List.zip_cons_cons, ih]

theorem eraseIdx_append_length {α : Type} (l : List α) (a : α) :
    (l ++ [a]).eraseIdx l.length = l := by
  induction l with
  | nil => rfl
  | cons b t ih => simp [List.eraseIdx, ih]

theorem set_getD {α : Type} (l : List α) (j : Nat) (d : α) :
    l.set j (l.getD j d) = l := by
  induction l generalizing j with
  | nil => simp
  | cons a t ih =>
    cases j with
    | zero => simp
    | succ n => simpa [List.getD] using ih n

theorem getD_set_ne {α : Type} (l : List α) {i j : Nat} (h : i ≠ j) (v d : α) :
    (l.set i v).getD j d = l.getD j d := by
  induction l generalizing i j with
  | nil => simp
  | cons a t ih =>
    cases i with
    | zero =>
      cases j with
      | zero => exact absurd rfl h
      | succ m => simp
    | succ n =>
      cases j with
      | zero => simp
      | succ m =>
        have hnm : n ≠ m := fun hc => h (congrArg Nat.succ hc)
        simpa [List.getD] using ih hnm

theorem indexOf_append_singleton {a : String} {l : List String} (h : a ∉ l) :
    (l ++ [a]).indexOf a = l.length := by
  induction l with
  | nil => simp
  | cons b t ih =>
    have hb : b ≠ a := fun hc => h (hc ▸ List.mem_cons_self b t)
    have ht : a ∉ t := fun hc => h (List.mem_cons_of_mem b hc)
    simp [List.indexOf_cons, hb, ih ht, Nat.succ_eq_add_one]

theorem indexOf_ne_of_present {l : List String} {a b : String}
    (ha : a ∈ l) (hab : a ≠ b) : l.indexOf a ≠ l.indexOf b := by
  intro hidx
  by_cases hb : b ∈ l
  · have h1 : l.indexOf a < l.length := List.indexOf_lt_length.mpr ha
    have h2 : l.indexOf b < l.length := List.indexOf_lt_length.mpr hb
    have := List.indexOf_inj ha hb |>.mp hidx
    exact hab this
  · have h1 : l.indexOf a < l.length := List.indexOf_lt_length.mpr ha
    have h2 : l.indexOf b = l.length := List.indexOf_eq_length.mpr hb
    omega

theorem nodup_const_length_le_one {α : Type} {l : List α} {a : α}
    (hnd : l.Nodup) (hconst : ∀ x ∈ l, x = a) : l.length ≤ 1 := by
  match l, hnd with
  | [], _ => simp
  | [x], _ => simp
  | x :: y :: t, hnd =>
    have hx : x = a := hconst x (by simp)
    have hy : y = a := hconst y (by simp)
    have : x ≠ y := by
      intro hc
      exact (List.nodup_cons.mp hnd).1 (hc ▸ List.mem_cons_self y t)
    exact absurd (hx.trans hy.symm) this

-- ---------------------------------------------------------------------------
-- Characterization of remove_duplicates
-- ---------------------------------------------------------------------------

/-- Row-level recursion equivalent to `drop_duplicates(keep="first")`:
keep a row iff its key has not occurred before. -/
def keepFirstRows (f : List Value → String) :
    List String → List (List Value) → List (List Value)
  | _, [] => []
  | seen, r :: rest =>
    if f r ∈ seen then keepFirstRows f seen rest
    else r :: keepFirstRows f (f r :: seen) rest

/-- Row-level recursion equivalent to `drop_duplicates(keep="last")`. -/
def keepLastRows (f : List Value → String) : List (List Value) → List (List Value)
  | [] => []
  | r :: rest =>
    if f r ∈ rest.map f then keepLastRows f rest
    else r :: keepLastRows f rest

/-- Abstract row-retention rule of `drop_duplicates` per keep strategy. -/
def keepRowsAbstract (keep : Keep) (f : List Value → String)
    (l : List (List Value)) : List (List Value) :=
  match keep with
  | .first => keepFirstRows f [] l
  | .last => keepLastRows f l
  | .none => l.filter (fun r => (l.map f).count (f r) ≤ 1)

theorem dropDupFirst_map {f : List Value → String}
    {g : List Value → List Value} (seen : List String) (l : List (List Value)) :
    dropDupFirst seen (l.map (fun r => (g r, f r))) =
      (keepFirstRows f seen l).map g := by
  induction l generalizing seen with
  | nil => rfl
  | cons r t ih =>
    simp only [List.map_cons, dropDupFirst, keepFirstRows]
    by_cases h : f r ∈ seen
    · simp [h, ih]
    · simp [h, ih]

theorem dropDupLast_map {f : List Value → String}
    {g : List Value → List Value} (l : List (List Value)) :
    dropDupLast (l.map (fun r => (g r, f r))) = (keepLastRows f l).map g := by
  induction l with
  | nil => rfl
  | cons r t ih =>
    have hcomp : (t.map (fun r => (g r, f r))).map Prod.snd = t.map f := by
      simp [List.map_map, Function.comp]
    simp only [List.map_cons, dropDupLast, keepLastRows, hcomp, ih]
    by_cases h : f r ∈ t.map f
    · simp [h]
    · simp [h]

theorem dropDupNone_map {f : List Value → String}
    {g : List Value → List Value} (allKeys : List String) (l : List (List Value)) :
    dropDupNone allKeys (l.map (fun r => (g r, f r))) =
      (l.filter (fun r => allKeys.count (f r) ≤ 1)).map g := by
  induction l with
  | nil => rfl
  | cons r t ih =>
    simp only [List.map_cons, dropDupNone, List.filter_cons] at *
    by_cases h : allKeys.count (f r) ≤ 1
    · simp [h, ← ih]
    · simp [h, ← ih]

theorem keepFirstRows_subset {f : List Value → String} {seen : List String}
    {l : List (List Value)} {r : List Value}
    (h : r ∈ keepFirstRows f seen l) : r ∈ l := by
  induction l generalizing seen with
  | nil => exact absurd h (by simp [keepFirstRows])
  | cons x t ih =>
    simp only [keepFirstRows] at h
    by_cases hx : f x ∈ seen
    · simp only [hx, if_true] at h
      exact List.mem_cons_of_mem x (ih h)
    · simp only [hx, if_false, List.mem_cons] at h
      rcases h with h | h
      · exact h ▸ List.mem_cons_self x t
      · exact List.mem_cons_of_mem x (ih h)

theorem keepLastRows_subset {f : List Value → String}
    {l : List (List Value)} {r : List Value}
    (h : r ∈ keepLastRows f l) : r ∈ l := by
  induction l with
  | nil => exact absurd h (by simp [keepLastRows])
  | cons x t ih =>
    simp only [keepLastRows] at h
    by_cases hx : f x ∈ t.map f
    · simp only [hx, if_true] at h
      exact List.mem_cons_of_mem x (ih h)
    · simp only [hx, if_false, List.mem_cons] at h
      rcases h with h | h
      · exact h ▸ List.mem_cons_self x t
      · exact List.mem_cons_of_mem x (ih h)

theorem keepRowsAbstract_subset {keep : Keep} {f : List Value → String}
    {l : List (List Value)} {r : List Value}
    (h : r ∈ keepRowsAbstract keep f l) : r ∈ l := by
  cases keep with
  | first => exact keepFirstRows_subset h
  | last => exact keepLastRows_subset h
  | none => exact List.mem_of_mem_filter h

/-- The central characterization of `remove_duplicates`: on a
well-formed frame with no pre-existing `"__dedup_key__"` column, the
auxiliary-column round trip is invisible — the output has the same
columns, and its rows are the input rows retained per the keep
strategy applied to the comparison keys. -/
theorem remove_duplicates_spec (lib : UnicodeLib) (config : DedupConfig)
    (df : DataFrame) (column : String) (hwf : df.Wf)
    (haux : "__dedup_key__" ∉ df.cols) :
    (remove_duplicates lib df column config).1.cols = df.cols ∧
    (remove_duplicates lib df column config).1.rows =
      keepRowsAbstract config.keep
        (fun r => dedupKey lib config (rowCell df column r)) df.rows := by
  set f : List Value → String := fun r => dedupKey lib config (rowCell df column r) with hf
  set g : List Value → List Value := fun r => r ++ [Value.str (f r)] with hg
  have hkeys : df.rows.map f = df.rows.map f := rfl
  have haddrows :
      (df.setColOrAppend "__dedup_key__" ((df.rows.map f).map Value.str)).rows =
        df.rows.map g := by
    simp only [DataFrame.setColOrAppend, haux, if_false, List.map_map]
    rw [show (df.rows.map (Value.str ∘ f)) = df.rows.map (fun r => Value.str (f r)) from rfl]
    rw [show df.rows.zip (df.rows.map fun r => Value.str (f r)) =
          df.rows.map (fun r => (r, Value.str (f r))) from zip_selfmap _ _]
    simp [List.map_map, hg]
  have haddcols :
      (df.setColOrAppend "__dedup_key__" ((df.rows.map f).map Value.str)).cols =
        df.cols ++ ["__dedup_key__"] := by
    simp [DataFrame.setColOrAppend, haux]
  have hzip :
      (df.rows.map g).zip (df.rows.map f) = df.rows.map (fun r => (g r, f r)) :=
    List.zip_map' g f df.rows
  have hkept :
      dropDupRows config.keep (df.rows.map f) ((df.rows.map g).zip (df.rows.map f)) =
        (keepRowsAbstract config.keep f df.rows).map g := by
    rw [hzip]
    cases config.keep with
    | first => exact dropDupFirst_map [] df.rows
    | last => exact dropDupLast_map df.rows
    | none => exact dropDupNone_map (df.rows.map f) df.rows
  have hidx : (df.cols ++ ["__dedup_key__"]).indexOf "__dedup_key__" = df.cols.length :=
    indexOf_append_singleton haux
  constructor
  · show (DataFrame.dropColumn _ _).cols = df.cols
    simp only [remove_duplicates, DataFrame.dropColumn, DataFrame.colIdx]
    rw [haddcols, hidx, eraseIdx_append_length]
  · show (DataFrame.dropColumn _ _).rows = _
    simp only [remove_duplicates, DataFrame.dropColumn, DataFrame.colIdx]
    rw [haddcols, haddrows, hidx, hkept]
    rw [List.map_map]
    have hcongr :
        List.map ((fun r => List.eraseIdx r df.cols.length) ∘ g)
            (keepRowsAbstract config.keep f df.rows) =
          List.map id (keepRowsAbstract config.keep f df.rows) := by
      apply List.map_congr_left
      intro r hr
      have hr' : r ∈ df.rows := keepRowsAbstract_subset hr
      have hlen : r.length = df.cols.length := hwf r hr'
      show (g r).eraseIdx df.cols.length = r
      simp only [hg]
      rw [← hlen, eraseIdx_append_length]
    rw [hcongr, List.map_id]

-- ---------------------------------------------------------------------------
-- Characterization of clean_columns
-- ---------------------------------------------------------------------------

/-- The dataframe component of one iteration of the cleaning column
loop: skip an absent column, else map the cell transform over it. -/
def dfStep (lib : UnicodeLib) (config : CleanConfig) (df : DataFrame)
    (col : String) : DataFrame :=
  if col ∈ df.cols then df.mapCol (df.colIdx col) (cleanCell lib config) else df

/-- The dataframe produced by the whole column loop. -/
def dfFold (lib : UnicodeLib) (config : CleanConfig) (cols : List String)
    (df : DataFrame) : DataFrame :=
  cols.foldl (dfStep lib config) df

theorem dfStep_cols (lib : UnicodeLib) (config : CleanConfig)
    (df : DataFrame) (col : String) :
    (dfStep lib config df col).cols = df.cols := by
  unfold dfStep
  split <;> rfl

theorem dfFold_cols (lib : UnicodeLib) (config : CleanConfig)
    (cols : List String) (df : DataFrame) :
    (dfFold lib config cols df).cols = df.cols := by
  induction cols generalizing df with
  | nil => rfl
  | cons c t ih => rw [dfFold, List.foldl_cons, ← dfFold, ih, dfStep_cols]

theorem processCol_df (lib : UnicodeLib) (config : CleanConfig)
    (st : CleanState) (col : String) :
    (processCol lib config st col).df = dfStep lib config st.df col := by
  unfold processCol dfStep
  split <;> rfl

theorem clean_fold_df (lib : UnicodeLib) (config : CleanConfig)
    (cols : List String) (st : CleanState) :
    (cols.foldl (processCol lib config) st).df = dfFold lib config cols st.df := by
  induction cols generalizing st with
  | nil => rfl
  | cons c t ih =>
    rw [List.foldl_cons, ih, processCol_df]
    unfold dfFold
    rw [List.foldl_cons]

theorem colVals_mapCol_ne (df : DataFrame) {i j : Nat} (h : i ≠ j)
    (f : Value → Value) : (df.mapCol i f).colVals j = df.colVals j := by
  simp only [DataFrame.mapCol, DataFrame.colVals, List.map_map]
  apply List.map_congr_left
  intro r _
  exact getD_set_ne r h _ _

theorem dictInsert_fresh {k : String} (v : Int) {l : List (String × Int)}
    (h : k ∉ l.map Prod.fst) : dictInsert k v l = l ++ [(k, v)] := by
  induction l with
  | nil => rfl
  | cons p t ih =>
    have hne : p.1 ≠ k := by
      intro hc
      exact h (by simp [hc])
    have ht : k ∉ t.map Prod.fst := fun hc => h (by simp [hc])
    simp [dictInsert, hne, ih ht]

/-- The full column loop on distinct, present columns: the metrics are
exactly the per-column figures computed from the ORIGINAL values of each
selected column (cleaning one column never disturbs another), and the
per-column dict lists the columns in selection order. -/
theorem processCol_fold (lib : UnicodeLib) (config : CleanConfig)
    (cols : List String) (df : DataFrame) (p0 : List (String × Int))
    (cm0 e0 : Nat) (hnd : cols.Nodup) (hp : ∀ c ∈ cols, c ∈ df.cols)
    (hfresh : ∀ c ∈ cols, c ∉ p0.map Prod.fst) :
    cols.foldl (processCol lib config) ⟨df, p0, cm0, e0⟩ =
      ⟨dfFold lib config cols df,
       p0 ++ cols.map (fun c => (c, colWsRemoved config (df.colVals (df.colIdx c)))),
       cm0 + (cols.map (fun c => colCellsModified lib config (df.colVals (df.colIdx c)))).sum,
       e0 + (cols.map (fun c => colEmptyToNa lib config (df.colVals (df.colIdx c)))).sum⟩ := by
  induction cols generalizing df p0 cm0 e0 with
  | nil => simp [dfFold]
  | cons col rest ih =>
    have hcol : col ∈ df.cols := hp col (List.mem_cons_self col rest)
    have hnotrest : col ∉ rest := (List.nodup_cons.mp hnd).1
    have hndrest : rest.Nodup := (List.nodup_cons.mp hnd).2
    rw [List.foldl_cons]
    have hstep : processCol lib config ⟨df, p0, cm0, e0⟩ col =
        ⟨df.mapCol (df.colIdx col) (cleanCell lib config),
         p0 ++ [(col, colWsRemoved config (df.colVals (df.colIdx col)))],
         cm0 + colCellsModified lib config (df.colVals (df.colIdx col)),
         e0 + colEmptyToNa lib config (df.colVals (df.colIdx col))⟩ := by
      have hf : col ∉ p0.map Prod.fst := hfresh col (List.mem_cons_self col rest)
      simp [processCol, hcol, dictInsert_fresh _ hf]
    rw [hstep]
    have hmapcols : (df.mapCol (df.colIdx col) (cleanCell lib config)).cols = df.cols := rfl
    have hvals : ∀ c ∈ rest,
        (df.mapCol (df.colIdx col) (cleanCell lib config)).colVals
            ((df.mapCol (df.colIdx col) (cleanCell lib config)).colIdx c) =
          df.colVals (df.colIdx c) := by
      intro c hc
      have hcne : col ≠ c := fun h => hnotrest (h ▸ hc)
      have hidxne : df.cols.indexOf col ≠ df.cols.indexOf c :=
        indexOf_ne_of_present hcol hcne
      have : (df.mapCol (df.colIdx col) (cleanCell lib config)).colIdx c =
          df.colIdx c := rfl
      rw [this]
      exact colVals_mapCol_ne df hidxne _
    rw [ih (df.mapCol (df.colIdx col) (cleanCell lib config))
        (p0 ++ [(col, colWsRemoved config (df.colVals (df.colIdx col)))])
        (cm0 + colCellsModified lib config (df.colVals (df.colIdx col)))
        (e0 + colEmptyToNa lib config (df.colVals (df.colIdx col)))
        hndrest
        (fun c hc => by rw [hmapcols] at *; exact hp c (List.mem_cons_of_mem col hc))
        (fun c hc => by
          intro hmem
          simp only [List.map_append, List.mem_append] at hmem
          rcases hmem with hmem | hmem
          · exact hfresh c (List.mem_cons_of_mem col hc) hmem
          · simp at hmem
            exact hnotrest (hmem ▸ hc))]
    have hrw1 : rest.map (fun c => (c, colWsRemoved config
          ((df.mapCol (df.colIdx col) (cleanCell lib config)).colVals
            ((df.mapCol (df.colIdx col) (cleanCell lib config)).colIdx c)))) =
        rest.map (fun c => (c, colWsRemoved config (df.colVals (df.colIdx c)))) :=
      List.map_congr_left (fun c hc => by rw [hvals c hc])
    have hrw2 : rest.map (fun c => colCellsModified lib config
          ((df.mapCol (df.colIdx col) (cleanCell lib config)).colVals
            ((df.mapCol (df.colIdx col) (cleanCell lib config)).colIdx c))) =
        rest.map (fun c => colCellsModified lib config (df.colVals (df.colIdx c))) :=
      List.map_congr_left (fun c hc => by rw [hvals c hc])
    have hrw3 : rest.map (fun c => colEmptyToNa lib config
          ((df.mapCol (df.colIdx col) (cleanCell lib config)).colVals
            ((df.mapCol (df.colIdx col) (cleanCell lib config)).colIdx c))) =
        rest.map (fun c => colEmptyToNa lib config (df.colVals (df.colIdx c))) :=
      List.map_congr_left (fun c hc => by rw [hvals c hc])
    rw [hrw1, hrw2, hrw3]
    have hdf : dfFold lib config rest (df.mapCol (df.colIdx col) (cleanCell lib config)) =
        dfFold lib config (col :: rest) df := by
      have hstep' : dfStep lib config df col =
          df.mapCol (df.colIdx col) (cleanCell lib config) := by
        simp [dfStep, hcol]
      unfold dfFold
      rw [List.foldl_cons, hstep']
    rw [hdf]
    simp [List.sum_cons, Nat.add_assoc, List.append_assoc]

-- ---------------------------------------------------------------------------
-- Idempotence machinery for cleaning
-- ---------------------------------------------------------------------------

theorem getD_set_self {α : Type} (l : List α) (i : Nat) (v d : α) :
    (l.set i v).getD i d = if i < l.length then v else d := by
  induction l generalizing i with
  | nil => simp
  | cons a t ih =>
    cases i with
    | zero => simp
    | succ n => simpa [List.getD] using ih n

/-- If the per-cell transform composes with the whitespace phase and
with itself idempotently, the whole per-cell clean is idempotent. -/
theorem cleanCell_idem (lib : UnicodeLib) (config : CleanConfig)
    (hE : config.empty_to_na = true)
    (H1 : ∀ s, wsClean config (postTransform lib config (wsClean config s)) =
      postTransform lib config (wsClean config s))
    (H2 : ∀ s, postTransform lib config (postTransform lib config s) =
      postTransform lib config s)
    (v : Value) :
    cleanCell lib config (cleanCell lib config v) = cleanCell lib config v := by
  cases v with
  | na => rfl
  | str s =>
    have hfix : postTransform lib config (wsClean config
        (postTransform lib config (wsClean config s))) =
        postTransform lib config (wsClean config s) := by
      rw [H1, H2]
    by_cases ht : postTransform lib config (wsClean config s) = ""
    · simp [cleanCell, cleanCellPre, hE, ht]
    · simp [cleanCell, cleanCellPre, hE, ht, hfix]

/-- Column `j` of `df` consists of fixed points of the cell transform. -/
def ColClean (lib : UnicodeLib) (config : CleanConfig) (df : DataFrame)
    (j : Nat) : Prop :=
  ∀ r ∈ df.rows, cleanCell lib config (r.getD j .na) = r.getD j .na

theorem mapCol_colClean_self (lib : UnicodeLib) (config : CleanConfig)
    (hidem : ∀ v, cleanCell lib config (cleanCell lib config v) =
      cleanCell lib config v)
    (df : DataFrame) (j : Nat) :
    ColClean lib config (df.mapCol j (cleanCell lib config)) j := by
  intro r' hr'
  simp only [DataFrame.mapCol, List.mem_map] at hr'
  obtain ⟨r, _, hrr⟩ := hr'
  subst hrr
  rw [getD_set_self]
  split
  · exact hidem _
  · rfl

theorem dfStep_colClean (lib : UnicodeLib) (config : CleanConfig)
    (hidem : ∀ v, cleanCell lib config (cleanCell lib config v) =
      cleanCell lib config v)
    (df : DataFrame) (col : String) {j : Nat}
    (h : ColClean lib config df j) :
    ColClean lib config (dfStep lib config df col) j := by
  unfold dfStep
  split
  · by_cases hij : df.colIdx col = j
    · subst hij
      exact mapCol_colClean_self lib config hidem df _
    · intro r' hr'
      simp only [DataFrame.mapCol, List.mem_map] at hr'
      obtain ⟨r, hr, hrr⟩ := hr'
      subst hrr
      rw [getD_set_ne r hij]
      exact h r hr
  · exact h

theorem dfFold_colClean (lib : UnicodeLib) (config : CleanConfig)
    (hidem : ∀ v, cleanCell lib config (cleanCell lib config v) =
      cleanCell lib config v)
    (cols : List String) (df : DataFrame) {j : Nat}
    (h : ColClean lib config df j) :
    ColClean lib config (dfFold lib config cols df) j := by
  induction cols generalizing df with
  | nil => exact h
  | cons c t ih =>
    unfold dfFold
    rw [List.foldl_cons]
    exact ih _ (dfStep_colClean lib config hidem df c h)

theorem dfFold_establishes_colClean (lib : UnicodeLib) (config : CleanConfig)
    (hidem : ∀ v, cleanCell lib config (cleanCell lib config v) =
      cleanCell lib config v)
    (cols : List String) (df : DataFrame) (col : String)
    (hmem : col ∈ cols) (hpres : col ∈ df.cols) :
    ColClean lib config (dfFold lib config cols df) (df.colIdx col) := by
  induction cols generalizing df with
  | nil => exact absurd hmem (List.not_mem_nil col)
  | cons c t ih =>
    unfold dfFold
    rw [List.foldl_cons]
    rcases List.mem_cons.mp hmem with hceq | hmemt
    · subst hceq
      apply dfFold_colClean lib config hidem t _
      have hstep : dfStep lib config df col =
          df.mapCol (df.colIdx col) (cleanCell lib config) := by
        simp [dfStep, hpres]
      rw [hstep]
      exact mapCol_colClean_self lib config hidem df _
    · have hcols : (dfStep lib config df c).cols = df.cols := dfStep_cols lib config df c
      have hpres' : col ∈ (dfStep lib config df c).cols := hcols ▸ hpres
      have := ih (dfStep lib config df c) hmemt hpres'
      have hidx : (dfStep lib config df c).colIdx col = df.colIdx col := by
        unfold DataFrame.colIdx
        rw [hcols]
      rw [hidx] at this
      exact this

theorem dfStep_id_of_colClean (lib : UnicodeLib) (config : CleanConfig)
    (df : DataFrame) (col : String)
    (h : col ∈ df.cols → ColClean lib config df (df.colIdx col)) :
    dfStep lib config df col = df := by
  unfold dfStep
  split
  · next hcol =>
    have hcc := h hcol
    show df.mapCol (df.colIdx col) (cleanCell lib config) = df
    unfold DataFrame.mapCol
    cases df with
    | mk cols rows =>
      simp only [DataFrame.mk.injEq, true_and]
      have : rows.map (fun r => r.set (DataFrame.colIdx ⟨cols, rows⟩ col)
          (cleanCell lib config (r.getD (DataFrame.colIdx ⟨cols, rows⟩ col) .na))) =
          rows.map id := by
        apply List.map_congr_left
        intro r hr
        rw [hcc r hr]
        exact set_getD r _ _
      rw [this, List.map_id]
  · rfl

theorem dfFold_id_of_colClean (lib : UnicodeLib) (config : CleanConfig)
    (cols : List String) (df : DataFrame)
    (h : ∀ col ∈ cols, col ∈ df.cols → ColClean lib config df (df.colIdx col)) :
    dfFold lib config cols df = df := by
  induction cols with
  | nil => rfl
  | cons c t ih =>
    unfold dfFold
    rw [List.foldl_cons]
    rw [dfStep_id_of_colClean lib config df c (h c (List.mem_cons_self c t))]
    exact ih (fun col hc => h col (List.mem_cons_of_mem c hc))

theorem dfFold_idem (lib : UnicodeLib) (config : CleanConfig)
    (hidem : ∀ v, cleanCell lib config (cleanCell lib config v) =
      cleanCell lib config v)
    (cols : List String) (df : DataFrame) :
    dfFold lib config cols (dfFold lib config cols df) = dfFold lib config cols df := by
  apply dfFold_id_of_colClean
  intro col hmem hpres
  have hcols : (dfFold lib config cols df).cols = df.cols := dfFold_cols lib config cols df
  have hpres0 : col ∈ df.cols := hcols ▸ hpres
  have hidx : (dfFold lib config cols df).colIdx col = df.colIdx col := by
    unfold DataFrame.colIdx
    rw [hcols]
  rw [hidx]
  exact dfFold_establishes_colClean lib config hidem cols df col hmem hpres0

/-- The transformed dataframe returned by `clean_columns`. -/
theorem clean_columns_df (lib : UnicodeLib) (config : CleanConfig)
    (df : DataFrame) (columns : Option (List String)) :
    (clean_columns lib df columns config).1 =
      dfFold lib config (columns.getD df.cols) df :=
  clean_fold_df lib config (columns.getD df.cols) ⟨df, [], 0, 0⟩

/-- Column preservation of `remove_duplicates` needs no row
well-formedness: the auxiliary column is appended and erased again. -/
theorem remove_duplicates_cols (lib : UnicodeLib) (config : DedupConfig)
    (df : DataFrame) (column : String) (haux : "__dedup_key__" ∉ df.cols) :
    (remove_duplicates lib df column config).1.cols = df.cols := by
  show (DataFrame.dropColumn _ _).cols = df.cols
  simp only [remove_duplicates, DataFrame.dropColumn, DataFrame.colIdx]
  have haddcols :
      (df.setColOrAppend "__dedup_key__"
        ((df.rows.map (fun r => dedupKey lib config (rowCell df column r))).map
          Value.str)).cols = df.cols ++ ["__dedup_key__"] := by
    simp [DataFrame.setColOrAppend, haux]
  rw [haddcols, indexOf_append_singleton haux, eraseIdx_append_length]

-- ---------------------------------------------------------------------------
-- Claim theorems
-- ---------------------------------------------------------------------------

/-- C1 counterexample: with `min_length = 10` and `drop_na = true`, the
single row whose value in the filtered column is missing is removed by
`filter_by_length` (the `astype(str)` rendering of missing has length
less than 10, and the NA retention carve-out is disabled), refuting the
claim that with `drop_na = true` every missing-valued row is still
retained. -/
theorem C1_counterexample :
    (⟨["name"], [[Value.na]]⟩ : DataFrame).rows = [[Value.na]] ∧
    Value.na.isna = true ∧
    (⟨some 10, true⟩ : FilterConfig).drop_na = true ∧
    (filter_by_length ⟨["name"], [[Value.na]]⟩ "name"
      ⟨some 10, true⟩).1.rows = [] := by
  decide

/-- C1 (amended): with `min_length` set, `filter_by_length` keeps exactly
the rows whose value's textual rendering (missing renders as `"nan"`,
length 3) is at least `min_length` long, or whose value is missing while
`drop_na` is false; consequently with `drop_na = true` a missing-valued
row is retained precisely when `min_length ≤ 3`, not unconditionally. -/
theorem C1_filter_retention (df : DataFrame) (column : String) (m : Int)
    (dn : Bool) :
    (filter_by_length df column ⟨some m, dn⟩).1.rows =
      df.rows.filter (fun r =>
        decide (((rowCell df column r).render.length : Int) ≥ m) ||
        ((rowCell df column r).isna && !dn)) ∧
    (dn = true → ∀ r ∈ df.rows, (rowCell df column r).isna = true →
      (r ∈ (filter_by_length df column ⟨some m, dn⟩).1.rows ↔ m ≤ 3)) := by
  have hmask : ∀ r, filterMask df column ⟨some m, dn⟩ m r =
      (decide (((rowCell df column r).render.length : Int) ≥ m) ||
        ((rowCell df column r).isna && !dn)) := by
    intro r
    unfold filterMask
    rw [Bool.and_comm]
  constructor
  · show df.rows.filter (filterMask df column ⟨some m, dn⟩ m) = _
    exact List.filter_congr (fun r _ => hmask r)
  · intro hdn r hr hna
    subst hdn
    have hcell : rowCell df column r = Value.na := by
      cases h : rowCell df column r with
      | na => rfl
      | str s => rw [h] at hna; exact absurd hna (by simp [Value.isna])
    show r ∈ df.rows.filter (filterMask df column ⟨some m, true⟩ m) ↔ m ≤ 3
    rw [List.mem_filter, hmask r, hcell]
    have h3 : ((Value.na.render.length : Nat) : Int) = 3 := by decide
    simp [Value.isna, hr, h3, ge_iff_le]

/-- C1 witness: for `min_length = 3` and `drop_na = true`, the missing
row is retained (3 ≤ 3). -/
theorem C1_filter_retention_witness :
    [Value.na] ∈ (filter_by_length ⟨["name"], [[Value.na]]⟩ "name"
      ⟨some 3, true⟩).1.rows ↔ (3 : Int) ≤ 3 :=
  (C1_filter_retention ⟨["name"], [[Value.na]]⟩ "name" 3 true).2 rfl
    [Value.na] (by decide) (by decide)

/-- C8: the repository defines no `ConfigurationError` and `FilterConfig`
is a plain dataclass with no validation, so a negative `min_length` is
accepted at construction time; `filter_by_length` then keeps every row,
because every rendered length is ≥ 0 ≥ `min_length`. -/
theorem C8_negative_min_length_silently_accepted (df : DataFrame)
    (column : String) (m : Int) (dn : Bool) (h : m ≤ 0) :
    (filter_by_length df column ⟨some m, dn⟩).1.rows = df.rows := by
  show df.rows.filter _ = df.rows
  rw [List.filter_eq_self]
  intro r _
  unfold filterMask
  have hlen : m ≤ ((rowCell df column r).render.length : Int) :=
    le_trans h (Int.ofNat_nonneg _)
  simp [ge_iff_le, hlen]

/-- C8 witness: `FilterConfig(min_length=-1)` is accepted and removes
nothing. -/
theorem C8_witness :
    ((-1 : Int) ≤ 0) ∧
    (filter_by_length ⟨["name"], [[Value.str "ab"], [Value.na]]⟩ "name"
      ⟨some (-1), false⟩).1.rows = [[Value.str "ab"], [Value.na]] :=
  ⟨by decide,
   C8_negative_min_length_silently_accepted
     ⟨["name"], [[Value.str "ab"], [Value.na]]⟩ "name" (-1) false (by decide)⟩

/-- C4: a stage's key appears in the pipeline metrics map exactly when
that stage's config field is non-None; in particular configuring only
cleaning and deduplication yields exactly the keys
`["cleaning", "deduplication"]`. -/
theorem C4_pipeline_metrics_keys (lib : UnicodeLib) (config : PipelineConfig)
    (df : DataFrame) (target : String) (cc : Option (List String)) :
    (("cleaning" ∈ (run lib config df target cc).metrics.map Prod.fst ↔
        config.cleaning.isSome = true) ∧
     ("filtering" ∈ (run lib config df target cc).metrics.map Prod.fst ↔
        config.filtering.isSome = true) ∧
     ("deduplication" ∈ (run lib config df target cc).metrics.map Prod.fst ↔
        config.deduplication.isSome = true)) ∧
    (∀ (x : CleanConfig) (y : DedupConfig),
      (run lib ⟨some x, Option.none, some y⟩ df target cc).metrics.map Prod.fst =
        ["cleaning", "deduplication"]) := by
  constructor
  · obtain ⟨oc, of, od⟩ := config
    cases oc <;> cases of <;> cases od <;> simp [run]
  · intro x y
    simp [run]

/-- C6 counterexample: a dataset that already contains a column named
`"__dedup_key__"` loses that column through `remove_duplicates` — the
internal auxiliary column overwrites it and is then dropped. -/
theorem C6_counterexample :
    "__dedup_key__" ∈
      (⟨["a", "__dedup_key__"], [[Value.str "x", Value.str "y"]]⟩ :
        DataFrame).cols ∧
    (remove_duplicates pyLib
      ⟨["a", "__dedup_key__"], [[Value.str "x", Value.str "y"]]⟩ "a"
      ⟨Keep.first, true, false⟩).1.cols = ["a"] := by
  decide

/-- C6 (amended): `clean_columns` and `filter_by_length` preserve the
column set for every input; `remove_duplicates` preserves it for every
dataset that does not already contain a column named `"__dedup_key__"`
(the reserved auxiliary key column, which would otherwise be removed). -/
theorem C6_column_preservation (lib : UnicodeLib) (df : DataFrame)
    (columns : Option (List String)) (ccfg : CleanConfig)
    (fcol dcol : String) (fcfg : FilterConfig) (dcfg : DedupConfig) :
    (clean_columns lib df columns ccfg).1.cols = df.cols ∧
    (filter_by_length df fcol fcfg).1.cols = df.cols ∧
    ("__dedup_key__" ∉ df.cols →
      (remove_duplicates lib df dcol dcfg).1.cols = df.cols) := by
  refine ⟨?_, ?_, ?_⟩
  · rw [clean_columns_df]
    exact dfFold_cols lib ccfg _ df
  · obtain ⟨ml, dn⟩ := fcfg
    cases ml <;> rfl
  · intro haux
    exact remove_duplicates_cols lib dcfg df dcol haux

/-- C6 witness: column preservation at a concrete dataset. -/
theorem C6_witness :
    (clean_columns pyLib ⟨["a"], [[Value.str "x"]]⟩ (some ["a"])
        ({} : CleanConfig)).1.cols = ["a"] ∧
    (filter_by_length ⟨["a"], [[Value.str "x"]]⟩ "a"
        ({} : FilterConfig)).1.cols = ["a"] ∧
    (remove_duplicates pyLib ⟨["a"], [[Value.str "x"]]⟩ "a"
        ({} : DedupConfig)).1.cols = ["a"] := by
  have h := C6_column_preservation pyLib ⟨["a"], [[Value.str "x"]]⟩
    (some ["a"]) ({} : CleanConfig) "a" "a" ({} : FilterConfig)
    ({} : DedupConfig)
  exact ⟨h.1, h.2.1, h.2.2 (by decide)⟩

theorem keepFirstRows_keys_nodup (f : List Value → String) (seen : List String)
    (l : List (List Value)) :
    ((keepFirstRows f seen l).map f).Nodup ∧
    ∀ r ∈ keepFirstRows f seen l, f r ∉ seen := by
  induction l generalizing seen with
  | nil => exact ⟨List.nodup_nil, fun r hr => absurd hr (by simp [keepFirstRows])⟩
  | cons x t ih =>
    by_cases hx : f x ∈ seen
    · have := ih seen
      constructor
      · simpa [keepFirstRows, hx] using this.1
      · intro r hr
        simp only [keepFirstRows, hx, if_true] at hr
        exact this.2 r hr
    · have htail := ih (f x :: seen)
      constructor
      · simp only [keepFirstRows, hx, if_false, List.map_cons, List.nodup_cons]
        constructor
        · intro hc
          obtain ⟨r, hr, hfr⟩ := List.mem_map.mp hc
          exact htail.2 r hr (hfr ▸ List.mem_cons_self (f x) seen)
        · exact htail.1
      · intro r hr
        simp only [keepFirstRows, hx, if_false, List.mem_cons] at hr
        rcases hr with hr | hr
        · exact hr ▸ hx
        · intro hc
          exact htail.2 r hr (List.mem_cons_of_mem (f x) hc)

/-- C3: with `keep = none` (the Python value `False`), every row whose
comparison key occurs more than once is removed, every row whose key
occurs exactly once survives, and the surviving rows form a subsequence
of the input rows (original relative order). -/
theorem C3_dedup_keep_none (lib : UnicodeLib) (df : DataFrame)
    (column : String) (config : DedupConfig) (hwf : df.Wf)
    (haux : "__dedup_key__" ∉ df.cols) (hkeep : config.keep = Keep.none) :
    (∀ r ∈ df.rows,
        1 < (df.rows.map (fun x => dedupKey lib config (rowCell df column x))).count
            (dedupKey lib config (rowCell df column r)) →
        r ∉ (remove_duplicates lib df column config).1.rows) ∧
    (∀ r ∈ df.rows,
        (df.rows.map (fun x => dedupKey lib config (rowCell df column x))).count
            (dedupKey lib config (rowCell df column r)) = 1 →
        r ∈ (remove_duplicates lib df column config).1.rows) ∧
    (remove_duplicates lib df column config).1.rows.Sublist df.rows := by
  have hspec := (remove_duplicates_spec lib config df column hwf haux).2
  rw [hkeep] at hspec
  simp only [keepRowsAbstract] at hspec
  refine ⟨?_, ?_, ?_⟩
  · intro r hr hcnt hmem
    rw [hspec] at hmem
    have := (List.mem_filter.mp hmem).2
    simp only [decide_eq_true_eq] at this
    omega
  · intro r hr hcnt
    rw [hspec]
    exact List.mem_filter.mpr ⟨hr, by simp [hcnt]⟩
  · rw [hspec]
    exact List.filter_sublist df.rows

/-- C3 witness: a concrete frame where the duplicated key's rows all
vanish and the unique-key row survives. -/
theorem C3_witness :
    [Value.str "b"] ∈ (remove_duplicates pyLib
      ⟨["email"], [[Value.str "a"], [Value.str "b"], [Value.str "a"]]⟩
      "email" ⟨Keep.none, true, false⟩).1.rows ∧
    [Value.str "a"] ∉ (remove_duplicates pyLib
      ⟨["email"], [[Value.str "a"], [Value.str "b"], [Value.str "a"]]⟩
      "email" ⟨Keep.none, true, false⟩).1.rows :=
  ⟨(C3_dedup_keep_none pyLib
      ⟨["email"], [[Value.str "a"], [Value.str "b"], [Value.str "a"]]⟩
      "email" ⟨Keep.none, true, false⟩ (by decide) (by decide) rfl).2.1
      [Value.str "b"] (by decide) (by decide),
   (C3_dedup_keep_none pyLib
      ⟨["email"], [[Value.str "a"], [Value.str "b"], [Value.str "a"]]⟩
      "email" ⟨Keep.none, true, false⟩ (by decide) (by decide) rfl).1
      [Value.str "a"] (by decide) (by decide)⟩

/-- C10: all missing-valued rows of the key column share one comparison
key (missing renders as one fixed literal), so they form a single
duplicate group: with `keep = first` at most one missing-valued row
survives, and with `keep = none` none survives once at least two rows
are missing in that column. -/
theorem C10_dedup_missing_group (lib : UnicodeLib) (df : DataFrame)
    (column : String) (config : DedupConfig) (hwf : df.Wf)
    (haux : "__dedup_key__" ∉ df.cols) :
    (∀ r ∈ df.rows, ∀ r' ∈ df.rows,
        (rowCell df column r).isna = true → (rowCell df column r').isna = true →
        dedupKey lib config (rowCell df column r) =
          dedupKey lib config (rowCell df column r')) ∧
    (config.keep = Keep.first →
      ((remove_duplicates lib df column config).1.rows.filter
          (fun r => (rowCell df column r).isna)).length ≤ 1) ∧
    (config.keep = Keep.none →
      2 ≤ (df.rows.filter (fun r => (rowCell df column r).isna)).length →
      (remove_duplicates lib df column config).1.rows.filter
          (fun r => (rowCell df column r).isna) = []) := by
  have hnakey : ∀ r, (rowCell df column r).isna = true →
      dedupKey lib config (rowCell df column r) = dedupKey lib config Value.na := by
    intro r hna
    cases h : rowCell df column r with
    | na => rfl
    | str s => rw [h] at hna; exact absurd hna (by simp [Value.isna])
  have hspec := (remove_duplicates_spec lib config df column hwf haux).2
  refine ⟨?_, ?_, ?_⟩
  · intro r hr r' hr' hna hna'
    rw [hnakey r hna, hnakey r' hna']
  · intro hkeep
    rw [hkeep] at hspec
    simp only [keepRowsAbstract] at hspec
    rw [hspec]
    set res := keepFirstRows
      (fun r => dedupKey lib config (rowCell df column r)) [] df.rows with hres
    have hnd : (res.map (fun r => dedupKey lib config (rowCell df column r))).Nodup :=
      (keepFirstRows_keys_nodup _ [] df.rows).1
    have hsub : ((res.filter (fun r => (rowCell df column r).isna)).map
        (fun r => dedupKey lib config (rowCell df column r))).Sublist
        (res.map (fun r => dedupKey lib config (rowCell df column r))) :=
      (List.filter_sublist res).map _
    have hnd' := hnd.sublist hsub
    have hconst : ∀ k ∈ (res.filter (fun r => (rowCell df column r).isna)).map
        (fun r => dedupKey lib config (rowCell df column r)),
        k = dedupKey lib config Value.na := by
      intro k hk
      obtain ⟨r, hrmem, hrk⟩ := List.mem_map.mp hk
      have hna : (rowCell df column r).isna = true :=
        (List.mem_filter.mp hrmem).2
      rw [← hrk]
      exact hnakey r hna
    have := nodup_const_length_le_one hnd' hconst
    simpa [List.length_map] using this
  · intro hkeep h2
    rw [hkeep] at hspec
    simp only [keepRowsAbstract] at hspec
    rw [hspec]
    set f : List Value → String := fun x => dedupKey lib config (rowCell df column x)
      with hfdef
    have hsubna : ((df.rows.filter (fun x => (rowCell df column x).isna)).map f).Sublist
        (df.rows.map f) := (List.filter_sublist df.rows).map f
    have hconst : ∀ k ∈ (df.rows.filter (fun x => (rowCell df column x).isna)).map f,
        dedupKey lib config Value.na = k := by
      intro k hk
      obtain ⟨x, hxmem, hxk⟩ := List.mem_map.mp hk
      have hxna : (rowCell df column x).isna = true :=
        (List.mem_filter.mp hxmem).2
      rw [← hxk]
      exact (hnakey x hxna).symm
    have hlen : ((df.rows.filter (fun x => (rowCell df column x).isna)).map f).count
        (dedupKey lib config Value.na) =
        ((df.rows.filter (fun x => (rowCell df column x).isna)).map f).length :=
      List.count_eq_length.mpr hconst
    have hle := hsubna.count_le (dedupKey lib config Value.na)
    rw [hlen, List.length_map] at hle
    have hge2 : 2 ≤ (df.rows.map f).count (dedupKey lib config Value.na) :=
      le_trans h2 hle
    apply List.eq_nil_iff_forall_not_mem.mpr
    intro r hmem
    have h1 := List.mem_filter.mp hmem
    have hna : (rowCell df column r).isna = true := h1.2
    have hcnt : (df.rows.map f).count (f r) ≤ 1 :=
      of_decide_eq_true (List.mem_filter.mp h1.1).2
    have hkey : f r = dedupKey lib config Value.na := hnakey r hna
    rw [hkey] at hcnt
    omega

/-- C10 witness: two missing rows, `keep = first` — at most one missing
row survives. -/
theorem C10_witness :
    ((remove_duplicates pyLib
        ⟨["k"], [[Value.na], [Value.str "x"], [Value.na]]⟩ "k"
        ⟨Keep.first, true, false⟩).1.rows.filter
      (fun r => (rowCell ⟨["k"], [[Value.na], [Value.str "x"], [Value.na]]⟩
        "k" r).isna)).length ≤ 1 :=
  (C10_dedup_missing_group pyLib
    ⟨["k"], [[Value.na], [Value.str "x"], [Value.na]]⟩ "k"
    ⟨Keep.first, true, false⟩ (by decide) (by decide)).2.1 rfl

/-- C2 counterexample: a single cell that is already missing before
cleaning is counted in `empty_strings_to_na` (the implementation's
`fillna("")` turns missing into the empty string before measuring), even
though nothing was converted: the output cell is missing exactly as the
input was.  The claim requires the metric to be 0 here. -/
theorem C2_counterexample :
    (clean_columns pyLib ⟨["text"], [[Value.na]]⟩ (some ["text"])
        ({} : CleanConfig)).2.empty_strings_to_na = 1 ∧
    (clean_columns pyLib ⟨["text"], [[Value.na]]⟩ (some ["text"])
        ({} : CleanConfig)).1.rows = [[Value.na]] ∧
    ({} : CleanConfig).empty_to_na = true := by
  decide

/-- C2 (amended): with `empty_to_na = true` and a duplicate-free
selection of present columns, `empty_strings_to_na` equals, summed over
the selected columns, the number of cells of the original column that
are missing OR clean to the empty string after steps 1-5 — pre-existing
missing cells ARE included in the count (they are not converted, but
they are counted). -/
theorem C2_empty_to_na_count (lib : UnicodeLib) (df : DataFrame)
    (cols : List String) (config : CleanConfig)
    (hE : config.empty_to_na = true) (hnd : cols.Nodup)
    (hp : ∀ c ∈ cols, c ∈ df.cols) :
    (clean_columns lib df (some cols) config).2.empty_strings_to_na =
      (cols.map (fun c => ((df.colVals (df.colIdx c)).filter
        (fun v => v.isna || cleanCellPre lib config v = Value.str "")).length)).sum := by
  have h := processCol_fold lib config cols df [] 0 0 hnd hp (by simp)
  show (cols.foldl (processCol lib config) ⟨df, [], 0, 0⟩).emptyToNa = _
  rw [h]
  simp [colEmptyToNa, hE]

/-- C2 witness: concrete evaluation — one originally-empty string, one
whitespace-only string, one valid string and one missing cell give a
count of 3. -/
theorem C2_witness :
    (clean_columns pyLib
      ⟨["text"], [[Value.str ""], [Value.str "  "], [Value.str "ok"], [Value.na]]⟩
      (some ["text"]) ({} : CleanConfig)).2.empty_strings_to_na = 3 :=
  (C2_empty_to_na_count pyLib
    ⟨["text"], [[Value.str ""], [Value.str "  "], [Value.str "ok"], [Value.na]]⟩
    ["text"] ({} : CleanConfig) rfl (by decide) (by decide)).trans (by decide)

theorem wsClean_flags_only (config config' : CleanConfig)
    (hst : config.strip = config'.strip)
    (hco : config.collapse_whitespace = config'.collapse_whitespace)
    (s : String) : wsClean config s = wsClean config' s := by
  unfold wsClean
  rw [hst, hco]

theorem colWsRemoved_flags_only (config config' : CleanConfig)
    (hst : config.strip = config'.strip)
    (hco : config.collapse_whitespace = config'.collapse_whitespace)
    (vs : List Value) : colWsRemoved config vs = colWsRemoved config' vs := by
  unfold colWsRemoved
  apply congrArg
  apply List.map_congr_left
  intro v _
  cases v with
  | na => rfl
  | str s =>
    show (countWs s.data : Int) - countWs (wsClean config s).data =
      (countWs s.data : Int) - countWs (wsClean config' s).data
    rw [wsClean_flags_only config config' hst hco]

/-- C5: the whitespace-removed metric is computed per column strictly
from the collapse+strip phase applied to the original cell values (count
of whitespace code points before minus after); it is therefore identical
for any two libraries and any two configs agreeing on `strip` and
`collapse_whitespace` — normalization, transliteration and case never
affect it.  Concretely, the cell `"  João  Silva  "` cleans to
`"João Silva"` with a whitespace-removed count of 6 − 1 = 5. -/
theorem C5_whitespace_metric (lib lib' : UnicodeLib) (df : DataFrame)
    (cols : List String) (config config' : CleanConfig)
    (hst : config.strip = config'.strip)
    (hco : config.collapse_whitespace = config'.collapse_whitespace)
    (hnd : cols.Nodup) (hp : ∀ c ∈ cols, c ∈ df.cols) :
    ((clean_columns lib df (some cols) config).2.per_column_whitespace_removed =
        cols.map (fun c => (c, colWsRemoved config (df.colVals (df.colIdx c)))) ∧
     (clean_columns lib df (some cols) config).2.total_whitespace_removed =
        (cols.map (fun c => colWsRemoved config (df.colVals (df.colIdx c)))).sum ∧
     (clean_columns lib df (some cols) config).2.per_column_whitespace_removed =
        (clean_columns lib' df (some cols) config').2.per_column_whitespace_removed ∧
     (clean_columns lib df (some cols) config).2.total_whitespace_removed =
        (clean_columns lib' df (some cols) config').2.total_whitespace_removed) ∧
    ((clean_columns pyLib ⟨["name"], [[Value.str "  João  Silva  "]]⟩
        (some ["name"]) ({} : CleanConfig)).1.rows =
          [[Value.str "João Silva"]] ∧
     (clean_columns pyLib ⟨["name"], [[Value.str "  João  Silva  "]]⟩
        (some ["name"]) ({} : CleanConfig)).2.total_whitespace_removed = 5) := by
  have h := processCol_fold lib config cols df [] 0 0 hnd hp (by simp)
  have h' := processCol_fold lib' config' cols df [] 0 0 hnd hp (by simp)
  have hper : (clean_columns lib df (some cols) config).2.per_column_whitespace_removed =
      cols.map (fun c => (c, colWsRemoved config (df.colVals (df.colIdx c)))) := by
    show (cols.foldl (processCol lib config) ⟨df, [], 0, 0⟩).perCol = _
    rw [h]
    simp
  have hper' : (clean_columns lib' df (some cols) config').2.per_column_whitespace_removed =
      cols.map (fun c => (c, colWsRemoved config' (df.colVals (df.colIdx c)))) := by
    show (cols.foldl (processCol lib' config') ⟨df, [], 0, 0⟩).perCol = _
    rw [h']
    simp
  have hmapeq : cols.map (fun c => (c, colWsRemoved config (df.colVals (df.colIdx c)))) =
      cols.map (fun c => (c, colWsRemoved config' (df.colVals (df.colIdx c)))) :=
    List.map_congr_left (fun c _ => by
      rw [colWsRemoved_flags_only config config' hst hco])
  have htot : (clean_columns lib df (some cols) config).2.total_whitespace_removed =
      (cols.map (fun c => colWsRemoved config (df.colVals (df.colIdx c)))).sum := by
    show ((cols.foldl (processCol lib config) ⟨df, [], 0, 0⟩).perCol.map Prod.snd).sum = _
    rw [h]
    simp only [List.nil_append, List.map_map]
    rfl
  have htot' : (clean_columns lib' df (some cols) config').2.total_whitespace_removed =
      (cols.map (fun c => colWsRemoved config' (df.colVals (df.colIdx c)))).sum := by
    show ((cols.foldl (processCol lib' config') ⟨df, [], 0, 0⟩).perCol.map Prod.snd).sum = _
    rw [h']
    simp only [List.nil_append, List.map_map]
    rfl
  refine ⟨⟨hper, htot, ?_, ?_⟩, by decide, by decide⟩
  · rw [hper, hper', hmapeq]
  · rw [htot, htot']
    apply congrArg
    exact List.map_congr_left (fun c _ => by
      rw [colWsRemoved_flags_only config config' hst hco])

/-- C5 witness: the metric equalities instantiated at a concrete frame
and two configs that differ in normalization, transliteration and case
but agree on the whitespace flags. -/
theorem C5_witness :
    (clean_columns pyLib ⟨["name"], [[Value.str " a  b "]]⟩ (some ["name"])
        ({} : CleanConfig)).2.total_whitespace_removed =
      (clean_columns pyLib ⟨["name"], [[Value.str " a  b "]]⟩ (some ["name"])
        ⟨true, true, Option.none, some CaseMode.upper, true, false,
          false⟩).2.total_whitespace_removed :=
  ((C5_whitespace_metric pyLib pyLib ⟨["name"], [[Value.str " a  b "]]⟩
    ["name"] ({} : CleanConfig)
    ⟨true, true, Option.none, some CaseMode.upper, true, false, false⟩
    rfl rfl (by decide) (by decide)).1).2.2.2

/-- C9 counterexample: for the cell U+02D8 (BREVE), the default config
(`strip`, `collapse_whitespace`, NFKC, `empty_to_na` all on) is not
idempotent: the first clean leaves the NFKC expansion SPACE + COMBINING
BREVE, and the second clean strips the space it introduced. -/
theorem C9_counterexample :
    (clean_columns pyLib (clean_columns pyLib
        ⟨["t"], [[Value.str (String.mk [Char.ofNat 0x2D8])]]⟩
        (some ["t"]) ({} : CleanConfig)).1
      (some ["t"]) ({} : CleanConfig)).1 ≠
      (clean_columns pyLib
        ⟨["t"], [[Value.str (String.mk [Char.ofNat 0x2D8])]]⟩
        (some ["t"]) ({} : CleanConfig)).1 ∧
    ({} : CleanConfig).empty_to_na = true ∧
    ({} : CleanConfig).unicode_normalization = some NormForm.NFKC := by
  decide

/-- C9 (amended): cleaning is idempotent for configs with
`empty_to_na = true` PROVIDED the normalization/transliteration/case
composite is idempotent and never reintroduces collapsible or strippable
whitespace into a whitespace-cleaned cell.  Real NFKC violates the
proviso (e.g. U+02D8 normalizes to a string with a leading space), so
the claim as universally stated fails; under the proviso the second
application changes nothing. -/
theorem C9_clean_idempotent (lib : UnicodeLib) (config : CleanConfig)
    (df : DataFrame) (columns : Option (List String))
    (hE : config.empty_to_na = true)
    (H1 : ∀ s, wsClean config (postTransform lib config (wsClean config s)) =
      postTransform lib config (wsClean config s))
    (H2 : ∀ s, postTransform lib config (postTransform lib config s) =
      postTransform lib config s) :
    (clean_columns lib (clean_columns lib df columns config).1 columns config).1 =
      (clean_columns lib df columns config).1 := by
  have hidem := cleanCell_idem lib config hE H1 H2
  cases columns with
  | some cs =>
    rw [clean_columns_df, clean_columns_df]
    simp only [Option.getD_some]
    exact dfFold_idem lib config hidem cs df
  | none =>
    rw [clean_columns_df, clean_columns_df]
    simp only [Option.getD_none]
    rw [dfFold_cols]
    exact dfFold_idem lib config hidem df.cols df

theorem nfkcChar_second_fixed (c : Char) :
    (nfkcChar c).flatMap nfkcChar = nfkcChar c := by
  by_cases h : c = Char.ofNat 0x2D8
  · subst h
    decide
  · simp [nfkcChar, h]

/-- The modelled NFKC map is idempotent (as the real one is). -/
theorem pyLib_nfkc_idem (s : String) :
    pyLib.normalize NormForm.NFKC (pyLib.normalize NormForm.NFKC s) =
      pyLib.normalize NormForm.NFKC s := by
  show String.mk ((s.data.flatMap nfkcChar).flatMap nfkcChar) =
    String.mk (s.data.flatMap nfkcChar)
  apply congrArg
  induction s.data with
  | nil => rfl
  | cons c t ih =>
    show (nfkcChar c ++ t.flatMap nfkcChar).flatMap nfkcChar =
      nfkcChar c ++ t.flatMap nfkcChar
    rw [List.flatMap_append, ih, nfkcChar_second_fixed]

/-- C9 witness: with whitespace phases disabled (so the proviso holds
definitionally) and the NFKC model (idempotent), cleaning twice equals
cleaning once on a concrete frame. -/
theorem C9_witness :
    (clean_columns pyLib (clean_columns pyLib
        ⟨["t"], [[Value.str "a b"], [Value.str ""], [Value.na]]⟩
        (some ["t"])
        ⟨false, false, some NormForm.NFKC, Option.none, false, false, true⟩).1
      (some ["t"])
      ⟨false, false, some NormForm.NFKC, Option.none, false, false, true⟩).1 =
      (clean_columns pyLib
        ⟨["t"], [[Value.str "a b"], [Value.str ""], [Value.na]]⟩
        (some ["t"])
        ⟨false, false, some NormForm.NFKC, Option.none, false, false, true⟩).1 :=
  C9_clean_idempotent pyLib
    ⟨false, false, some NormForm.NFKC, Option.none, false, false, true⟩
    ⟨["t"], [[Value.str "a b"], [Value.str ""], [Value.na]]⟩ (some ["t"])
    rfl (fun _ => rfl) (fun s => pyLib_nfkc_idem s)

end TkPrep
